import Mathlib

/-!
Shallow embedding of the Timepon MCP server core (`mcp-server/index.js`):
the metadata index, the summary/tag extractor, the binary/text classifier,
the ignore-pattern engine, the tree serializer, the durable-write retry
protocol, and the query operations.  JavaScript strings are modelled as
Lean `String` (code points; the inputs of interest are ASCII, where the
two notions of length and slicing coincide), machine numbers as `Int`
(epoch milliseconds) and `Rat` (the `hours` query argument), and fallible
operations as `Except`.
-/

namespace Timepon

/-- Whitespace as JavaScript `trim` / `\s` sees it (space, tab, newline,
carriage return, vertical tab, form feed; the Unicode space classes are
irrelevant to the inputs considered here). -/
def jsSpace (c : Char) : Bool :=
  c = ' ' || c = '\t' || c = '\n' || c = '\r' || c = '\x0b' || c = '\x0c'

/-- JavaScript `String.prototype.trim`. -/
def jsTrim (s : String) : String :=
  String.mk (((s.toList.dropWhile jsSpace).reverse.dropWhile jsSpace).reverse)

/-- JavaScript `.slice(0, 80)` on the strings produced here (code points). -/
def take80 (s : String) : String :=
  String.mk (s.toList.take 80)

/-- JavaScript prefix test on strings (list-based so that the kernel
can evaluate it). -/
def strStartsWith (s pre : String) : Bool :=
  List.isPrefixOf pre.toList s.toList

/-- JavaScript suffix test on strings. -/
def strEndsWith (s suf : String) : Bool :=
  List.isSuffixOf suf.toList s.toList

/-- JavaScript slice dropping the first characters of a string. -/
def strDrop (s : String) (n : Nat) : String :=
  String.mk (s.toList.drop n)

/-- Split of a character list on a separator character, JavaScript
split semantics (an empty input yields one empty segment, a trailing
separator a trailing empty segment). -/
def splitListOn (sep : Char) : List Char → List (List Char)
  | [] => [[]]
  | c :: cs =>
    let r := splitListOn sep cs
    if c = sep then [] :: r
    else
      match r with
      | [] => [[c]]
      | h :: t => (c :: h) :: t

/-- JavaScript array join with a separator string. -/
def joinSep (sep : String) : List String → String
  | [] => ""
  | [x] => x
  | x :: y :: xs => x ++ sep ++ joinSep sep (y :: xs)

/-- JavaScript splitting of the content on the newline character. -/
def splitLines (s : String) : List String :=
  (splitListOn '\n' s.toList).map String.mk

/-- The split lines with the blank ones filtered out, as in
`lines.filter(l => l.trim())`. -/
def nonBlankLines (s : String) : List String :=
  (splitLines s).filter (fun l => jsTrim l ≠ "")

/-- Lower-casing as `toLowerCase` acts on ASCII. -/
def lowerStr (s : String) : String :=
  String.mk (s.toList.map Char.toLower)

/-- Path separators recognised by the Node `path` module on Windows
(`/` and `\`); the forward slash alone on POSIX. -/
def isSep (c : Char) : Bool :=
  c = '/' || c = '\\'

/-- Node `path.basename`: the last path component (trailing-separator
stripping is irrelevant to the paths handled by the server, which are
file paths). -/
def basename (p : String) : String :=
  String.mk (p.toList.foldl (fun acc c => if isSep c then [] else acc ++ [c]) [])

/-- Characters after the last `.` of the list, `none` when no dot occurs. -/
def afterLastDot (l : List Char) : Option (List Char) :=
  l.foldl (fun acc c => if c = '.' then some [] else acc.map (fun t => t ++ [c])) none

/-- Node `path.extname`: from the last `.` of the basename to the end,
empty when the basename has no dot past its first character. -/
def extname (p : String) : String :=
  match afterLastDot ((basename p).toList.drop 1) with
  | none => ""
  | some suf => String.mk ('.' :: suf)

/-- One tracked file's record: `created` (epoch milliseconds of the
filesystem birth time), `summary`, `tags`, and the optional stale
marking added by a failed refresh. -/
structure FileRecord where
  created : Int
  summary : String
  tags : List String
  stale : Bool := false
  staleReason : Option String := none
deriving DecidableEq, Repr

/-- The in-memory metadata index `this.metadata.files`: a key-ordered
association list from absolute path to record (JavaScript object, string
keys, insertion order). -/
abbrev Index := List (String × FileRecord)

/-- Lookup of `files[path]` in the index. -/
def findRec (files : Index) (p : String) : Option FileRecord :=
  match files with
  | [] => none
  | (q, r) :: rest => if q = p then some r else findRec rest p

/-- Strip of a leading `#` run and following whitespace: the heading
replace regex in `generateSummary`, anchored at the line start. -/
def stripMdMarker (s : String) : String :=
  match s.toList with
  | c :: _ =>
    if c = '#' then
      String.mk ((s.toList.dropWhile (fun d => d = '#')).dropWhile jsSpace)
    else s
  | [] => s

/-- Strip of a leading run of `/` and `#` characters and following
whitespace: the comment replace regex in `generateSummary`, a character
class of slash and hash repeated then whitespace, anchored at the line
start; when the line does not begin with `/` or `#` the regex fails to
match and the line is returned unchanged. -/
def stripCommentMarker (s : String) : String :=
  match s.toList with
  | c :: _ =>
    if c = '/' || c = '#' then
      String.mk ((s.toList.dropWhile (fun d => d = '/' || d = '#')).dropWhile jsSpace)
    else s
  | [] => s

/-- The source-code extensions recognised by `generateSummary`. -/
def summaryCodeExts : List String :=
  [".js", ".ts", ".py", ".java", ".cs", ".go"]

/-- `generateSummary(content, filePath)`. -/
def generateSummary (content filePath : String) : String :=
  let ext := extname filePath
  if content = "" then ext ++ " file"
  else if ext = ".md" then
    let lines := nonBlankLines content
    match lines.find? (fun l => strStartsWith l "#") with
    | some heading => take80 (stripMdMarker heading)
    | none =>
      match lines.head? with
      | some l => take80 l
      | none => "Empty markdown file"
  else if summaryCodeExts.contains ext then
    let lines := nonBlankLines content
    match lines.find?
        (fun l => strStartsWith (jsTrim l) "//" || strStartsWith (jsTrim l) "#") with
    | some comment => take80 (stripCommentMarker comment)
    | none => strDrop ext 1 ++ " source file"
  else
    match (splitLines content).find? (fun l => jsTrim l ≠ "") with
    | some firstLine => take80 firstLine
    | none => basename filePath

/-- Extension tables of `generateTags`. -/
def tagCodeExts : List String :=
  ["js", "ts", "py", "java", "cs", "go", "rb", "php", "cpp", "c", "rs"]

def tagDocExts : List String :=
  ["md", "txt", "rst", "adoc"]

def tagConfigExts : List String :=
  ["json", "yaml", "yml", "toml", "ini", "env"]

/-- Substring occurrence, JavaScript `String.prototype.includes`. -/
def containsSub (s sub : String) : Bool :=
  go s.toList sub.toList
where
  go : List Char → List Char → Bool
  | _, [] => true
  | [], _ :: _ => false
  | c :: cs, sub => List.isPrefixOf sub (c :: cs) || go cs sub

/-- `generateTags(content, filePath)`. -/
def generateTags (content filePath : String) : List String :=
  let ext := strDrop (extname filePath) 1
  let tags := if ext ≠ "" then [ext] else []
  let tags := tags ++
    (if tagCodeExts.contains ext then ["code"]
     else if tagDocExts.contains ext then ["docs"]
     else if tagConfigExts.contains ext then ["config"]
     else [])
  let tags := tags ++
    (if ext = "md" && content ≠ "" then
      let lower := lowerStr content
      (if containsSub lower "todo" || containsSub lower "task" then ["tasks"] else []) ++
      (if containsSub lower "api" || containsSub lower "endpoint" then ["api"] else []) ++
      (if containsSub lower "schema" || containsSub lower "database" then ["data"] else []) ++
      (if containsSub lower "architecture" || containsSub lower "design" then ["architecture"] else [])
     else [])
  tags.take 3

/-- `knownTextExts` of `isBinary`. -/
def knownTextExts : List String :=
  [".txt", ".md", ".json", ".js", ".ts", ".py", ".java",
   ".cs", ".go", ".rb", ".php", ".html", ".css", ".xml",
   ".yaml", ".yml", ".toml", ".ini", ".sh", ".bat", ".ps1"]

/-- `knownBinaryExts` of `isBinary`. -/
def knownBinaryExts : List String :=
  [".exe", ".dll", ".so", ".dylib", ".bin", ".dat",
   ".zip", ".tar", ".gz", ".7z", ".rar", ".jpg", ".jpeg",
   ".png", ".gif", ".bmp", ".pdf", ".doc", ".docx", ".xls"]

/-- Magic-byte sniff of `isBinary` on the first four bytes
(ZIP `PK`, PNG, GIF, JPEG, PDF); reachable only when the buffer holds at
least four bytes. -/
def magicBytesBinary (buffer : List Nat) : Bool :=
  match buffer with
  | b0 :: b1 :: b2 :: b3 :: _ =>
    (b0 = 0x50 && b1 = 0x4B) ||
    (b0 = 0x89 && b1 = 0x50 && b2 = 0x4E && b3 = 0x47) ||
    (b0 = 0x47 && b1 = 0x49 && b2 = 0x46) ||
    (b0 = 0xFF && b1 = 0xD8) ||
    (b0 = 0x25 && b1 = 0x50 && b2 = 0x44 && b3 = 0x46)
  | _ => false

/-- `isBinary(buffer, filePath)`; the buffer is the file's bytes, the 30%
threshold `nonPrintable / sampleSize > 0.3` is modelled exactly as the
rational inequality `10 * nonPrintable > 3 * sampleSize`. -/
def isBinary (buffer : List Nat) (filePath : String) : Bool :=
  let ext := lowerStr (extname filePath)
  if knownTextExts.contains ext then false
  else if knownBinaryExts.contains ext then true
  else if magicBytesBinary buffer then true
  else
    let sample := buffer.take 512
    if sample.length = 0 then false
    else
      let nonPrintable :=
        (sample.filter (fun b => b < 32 && b ≠ 9 && b ≠ 10 && b ≠ 13)).length
      decide (10 * nonPrintable > 3 * sample.length)

/-- One token of the regex body produced by `globToRegex`: a literal
character (regex metacharacters are escaped by the first replace, so
every remaining character stands for itself), `.*` produced from `*`,
or `.` produced from `?`. -/
inductive GTok where
  | lit (c : Char)
  | star
  | qmark
deriving DecidableEq, Repr

/-- The compiled form of a gitignore-style glob line, mirroring the
regex string `globToRegex` builds: `anchored` when the pattern begins
with a slash (regex anchored with a caret instead of the
start-or-separator group), `dirOnly` when it ends with a slash (regex
suffixed with the separator-or-end group). -/
structure GlobCompiled where
  anchored : Bool
  dirOnly : Bool
  body : List GTok
deriving DecidableEq, Repr

/-- Line terminators that the JavaScript regex dot does not match. -/
def isLineTerm (c : Char) : Bool :=
  c = '\n' || c = '\r' || c = Char.ofNat 0x2028 || c = Char.ofNat 0x2029

/-- `globToRegex(pattern)`. -/
def globToRegex (pattern : String) : GlobCompiled :=
  let isDirectoryOnly := strEndsWith pattern "/"
  let pattern := if isDirectoryOnly then String.mk (pattern.toList.dropLast) else pattern
  let anchored := strStartsWith pattern "/"
  let core := if anchored then strDrop pattern 1 else pattern
  { anchored := anchored
    dirOnly := isDirectoryOnly
    body := core.toList.map (fun c =>
      if c = '*' then GTok.star else if c = '?' then GTok.qmark else GTok.lit c) }

/-- Backtracking matcher for a token body against a character list; the
continuation decides whether the remainder after the body is acceptable
(used for the separator-or-end group of directory-only patterns).  The
fuel only bounds the recursion depth so that the definition is
structural (hence kernel-evaluable): every step consumes a token or a
character, so a depth of tokens plus characters plus one — what
`bodyMatch` below supplies — never runs out. -/
def bodyMatchF (fin : List Char → Bool) : Nat → List GTok → List Char → Bool
  | 0, _, _ => false
  | _ + 1, [], cs => fin cs
  | _ + 1, GTok.lit _ :: _, [] => false
  | fuel + 1, GTok.lit c :: ts, d :: ds => c = d && bodyMatchF fin fuel ts ds
  | _ + 1, GTok.qmark :: _, [] => false
  | fuel + 1, GTok.qmark :: ts, d :: ds => !isLineTerm d && bodyMatchF fin fuel ts ds
  | fuel + 1, GTok.star :: ts, cs =>
    bodyMatchF fin fuel ts cs ||
      (match cs with
       | [] => false
       | d :: ds => !isLineTerm d && bodyMatchF fin fuel (GTok.star :: ts) ds)

/-- See `bodyMatchF`. -/
def bodyMatch (fin : List Char → Bool) (ts : List GTok) (cs : List Char) : Bool :=
  bodyMatchF fin (ts.length + cs.length + 1) ts cs

/-- The separator-or-end group appended for directory-only patterns; for
the others the remainder is unconstrained. -/
def restOk (dirOnly : Bool) (rest : List Char) : Bool :=
  if dirOnly then
    match rest with
    | [] => true
    | c :: _ => isSep c
  else true

/-- Match of the compiled body beginning at the current position. -/
def matchFrom (g : GlobCompiled) (cs : List Char) : Bool :=
  bodyMatch (restOk g.dirOnly) g.body cs

/-- Unanchored regex search with the start-or-separator leading group:
the body may begin at the start of the path or just after a separator
character (which the group consumes). -/
def searchFrom (g : GlobCompiled) : List Char → Bool → Bool
  | [], bdry => bdry && matchFrom g []
  | c :: cs', bdry =>
    (bdry && matchFrom g (c :: cs')) || searchFrom g cs' (isSep c)

/-- JavaScript `regex.test(path)` for the compiled pattern. -/
def globTest (g : GlobCompiled) (path : String) : Bool :=
  if g.anchored then matchFrom g path.toList else searchFrom g path.toList true

/-- `parseIgnoreFile(filePath)`: the file content when readable, `none`
when missing or unreadable (which yields zero patterns); blank lines and
comment lines are dropped, the rest compiled. -/
def parseIgnoreFile (content : Option String) : List GlobCompiled :=
  match content with
  | none => []
  | some c =>
    ((((splitLines c).map jsTrim).filter
        (fun l => l ≠ "" && !strStartsWith l "#")).map globToRegex)

/-- Literal token run for the two built-in always-ignored regexes. -/
def litToks (s : String) : List GTok :=
  s.toList.map GTok.lit

/-- The first built-in pattern pushed by `loadIgnorePatterns`: the
regex matching the metadata document name at the start or after a
separator. -/
def builtinTimeponPattern : GlobCompiled :=
  { anchored := false, dirOnly := false, body := litToks "_timepon.yaml" }

/-- The second built-in pattern pushed by `loadIgnorePatterns`: the
regex matching a metadata backup file name prefix at the start or after
a separator. -/
def builtinBackupPattern : GlobCompiled :=
  { anchored := false, dirOnly := false, body := litToks "_timepon.yaml.backup." }

/-- `loadIgnorePatterns()`: the project-specific patterns, then the
fallback patterns, then the built-in ones. -/
def loadIgnorePatterns (tponignore gitignore : Option String) : List GlobCompiled :=
  parseIgnoreFile tponignore ++ parseIgnoreFile gitignore ++
    [builtinTimeponPattern, builtinBackupPattern]

/-- A path is ignored when any compiled predicate matches (the watcher
applies every pattern of the list). -/
def isIgnored (patterns : List GlobCompiled) (path : String) : Bool :=
  patterns.any (fun g => globTest g path)

/-- `SAVE_RETRY_MAX`. -/
def SAVE_RETRY_MAX : Nat := 3

/-- `SAVE_RETRY_BASE_DELAY` in milliseconds. -/
def SAVE_RETRY_BASE_DELAY : Nat := 1000

/-- The retry protocol of `saveMetadata`, driven by the outcomes of the
successive write attempts (`true` when the write succeeds): returns the
backoff delays passed to the scheduled asynchronous retries, in order,
and the final value of `saveRetryCount`.  Each failed attempt with the
counter below the maximum increments the counter and schedules the next
attempt after two to the power of the new counter times the base delay;
success and exhaustion both reset the counter to zero. -/
def saveRun : Nat → List Bool → List Nat × Nat
  | c, [] => ([], c)
  | c, ok :: rest =>
    if ok then ([], 0)
    else if c < SAVE_RETRY_MAX then
      let d := 2 ^ (c + 1) * SAVE_RETRY_BASE_DELAY
      let r := saveRun (c + 1) rest
      (d :: r.1, r.2)
    else ([], 0)

/-- Stable insertion sort; models the JavaScript stable array sort for
the comparators used here (an element is inserted before the first one
it is ordered no later than, so elements comparing equal keep their
original order). -/
def insertBy {α : Type} (le : α → α → Bool) (x : α) : List α → List α
  | [] => [x]
  | y :: ys => if le x y then x :: y :: ys else y :: insertBy le x ys

/-- See `insertBy`. -/
def sortBy {α : Type} (le : α → α → Bool) (l : List α) : List α :=
  l.foldr (insertBy le) []

/-- Newest-created-first comparator used by every query operation and by
the serializer. -/
def createdDesc (a b : String × FileRecord) : Bool :=
  decide (b.2.created ≤ a.2.created)

/-- Node `path.relative(root, p)` for the only case the server meets:
`p` lies under `root`, so the root prefix and its separator are
stripped. -/
def relativeTo (root p : String) : String :=
  if strStartsWith p (root ++ "/") then strDrop p (root.length + 1) else p

/-- The observable server state touched by the watcher handler: the
index, the initialization flag suppressing per-file persists during the
initial scan, and a count of the persists triggered so far. -/
structure ServerState where
  files : Index
  isInitializing : Bool
  saveCount : Nat
deriving Repr

/-- The filesystem result a watcher add event delivers for a path: an
error (the stat call threw; the handler catches and does nothing), or
the birth time in epoch milliseconds together with the content that
`readFileContent` produces (empty for oversized or binary files, which
never throws). -/
abbrev StatResult := Except String (Int × String)

/-- `handleFileCreation(filePath)`: an early return when the path is
already tracked, otherwise a fresh record is inserted and a persist is
triggered unless the initial scan is still running. -/
def handleFileCreation (st : ServerState) (filePath : String) (stat : StatResult) :
    ServerState :=
  match findRec st.files filePath with
  | some _ => st
  | none =>
    match stat with
    | Except.error _ => st
    | Except.ok (birth, content) =>
      let md : FileRecord :=
        { created := birth
          summary := generateSummary content filePath
          tags := generateTags content filePath }
      { files := st.files ++ [(filePath, md)]
        isInitializing := st.isInitializing
        saveCount := if st.isInitializing then st.saveCount else st.saveCount + 1 }

/-- A fallible per-path content read used by the refresh operation. -/
abbrev ReadOracle := String → Except String String

/-- One record as `refreshMetadata` rebuilds it: on a successful re-read
the record is replaced by a fresh one (clearing any stale marking,
preserving the original creation time); on failure the existing record
is kept and marked stale with the error message. -/
def refreshRecord (p : String) (r : FileRecord) (read : Except String String) :
    FileRecord :=
  match read with
  | Except.ok content =>
    { created := r.created
      summary := generateSummary content p
      tags := generateTags content p }
  | Except.error e =>
    { r with stale := true, staleReason := some e }

/-- `refreshMetadata()` on the index: every tracked path re-read and its
record rebuilt or marked stale.  The batching of ten concurrent reads
only bounds filesystem pressure; each batch member writes its own key
alone, so the result per record is this per-key map. -/
def refreshMetadata (files : Index) (read : ReadOracle) : Index :=
  files.map (fun e => (e.1, refreshRecord e.1 e.2 (read e.1)))

/-- Any number of successive refresh calls, each with its own read
oracle. -/
def refreshMany (oracles : List ReadOracle) (files : Index) : Index :=
  oracles.foldl (fun fs o => refreshMetadata fs o) files

/-- `getRecentFiles(hours)`: the validation rejecting non-positive
hours, the cutoff at now minus hours (milliseconds), the strict filter
on `created`, the newest-first sort, and the path relativization of the
response entries. -/
def getRecentFiles (root : String) (files : Index) (nowMs : Int) (hours : ℚ) :
    Except String Index :=
  if hours ≤ 0 then Except.error "Hours parameter must be a positive number"
  else
    let cutoff : ℚ := (nowMs : ℚ) - hours * 3600000
    Except.ok
      (((sortBy createdDesc
          (files.filter (fun e => decide (cutoff < (e.2.created : ℚ))))).map
        (fun e => (relativeTo root e.1, e.2))))

/-- The tool dispatch for `get_recent_files`: the handler passes
`args.hours || 24`, so a missing argument and the number zero (which is
falsy) both become the default 24. -/
def getRecentFilesTool (root : String) (files : Index) (nowMs : Int)
    (hours : Option ℚ) : Except String Index :=
  getRecentFiles root files nowMs
    (match hours with
     | none => 24
     | some h => if h = 0 then 24 else h)

/-- Civil date (year, month, day) of a day number counted from the Unix
epoch; the standard era-based conversion used by date libraries.  The
JavaScript date methods render in the local timezone; timezone offsets
shift whole minutes and are immaterial to the properties proved below,
so the embedding renders in UTC. -/
def civilFromDays (z0 : Int) : Int × Int × Int :=
  let z := z0 + 719468
  let era := Int.fdiv z 146097
  let doe := Int.fmod z 146097
  let yoe := Int.fdiv (doe - Int.fdiv doe 1460 + Int.fdiv doe 36524 - Int.fdiv doe 146096) 365
  let y := yoe + era * 400
  let doy := doe - (365 * yoe + Int.fdiv yoe 4 - Int.fdiv yoe 100)
  let mp := Int.fdiv (5 * doy + 2) 153
  let d := doy - Int.fdiv (153 * mp + 2) 5 + 1
  let m := if mp < 10 then mp + 3 else mp - 9
  (if m ≤ 2 then y + 1 else y, m, d)

/-- Two-digit zero padding of the rendered date and time fields. -/
def pad2 (n : Int) : String :=
  if n < 10 then "0" ++ toString n else toString n

/-- Short month names of the en-GB locale. -/
def monthShortNames : List String :=
  ["Jan", "Feb", "Mar", "Apr", "May", "Jun",
   "Jul", "Aug", "Sep", "Oct", "Nov", "Dec"]

/-- Milliseconds into the day of an epoch-millisecond timestamp. -/
def msOfDay (t : Int) : Int :=
  Int.fmod t 86400000

/-- Day number of an epoch-millisecond timestamp. -/
def dayNumber (t : Int) : Int :=
  Int.fdiv t 86400000

/-- The date part rendered by `formatDateTime`: two-digit day, short
month, numeric year of the en-GB locale. -/
def dateStr (t : Int) : String :=
  let ymd := civilFromDays (dayNumber t)
  pad2 ymd.2.2 ++ " " ++ monthShortNames.getD (ymd.2.1 - 1).toNat "" ++ " " ++
    toString ymd.1

/-- The time part rendered by `formatDateTime`: two-digit hour and
minute only — `toLocaleTimeString` is called without a seconds option,
so seconds never reach the document. -/
def timeStr (t : Int) : String :=
  pad2 (Int.fdiv (msOfDay t) 3600000) ++ ":" ++
    pad2 (Int.fmod (Int.fdiv (msOfDay t) 60000) 60)

/-- `getRelativeTime(isoDate)` (the identical relative-age computation
is inlined in `formatDateTime` as well). -/
def getRelativeTime (created now : Int) : String :=
  let diffMs := now - created
  let diffMins := Int.fdiv diffMs 60000
  let diffHours := Int.fdiv diffMs 3600000
  let diffDays := Int.fdiv diffMs 86400000
  if diffMins < 1 then "just now"
  else if diffMins < 60 then toString diffMins ++ "m ago"
  else if diffHours < 24 then toString diffHours ++ "h ago"
  else if diffDays < 7 then toString diffDays ++ "d ago"
  else toString (Int.fdiv diffDays 7) ++ "w ago"

/-- `formatDateTime(isoDate)`: the annotated timestamp written on each
created line of the document. -/
def formatDateTime (created now : Int) : String :=
  dateStr created ++ " " ++ timeStr created ++ " >>(" ++
    getRelativeTime created now ++ ")<<"

/-- `getFileIcon(filename)`; the icon strings are copied byte-for-byte
from the source file. -/
def getFileIcon (filename : String) : String :=
  let ext := lowerStr (extname filename)
  if ext = ".md" then "üìÑ"
  else if ext = ".txt" then "üìù"
  else if ext = ".js" then "‚ö°"
  else if ext = ".ts" then "üî∑"
  else if ext = ".py" then "üêç"
  else if ext = ".json" then "üìã"
  else if ext = ".yaml" then "‚öôÔ∏è"
  else if ext = ".yml" then "‚öôÔ∏è"
  else if ext = ".html" then "üåê"
  else if ext = ".css" then "üé®"
  else if ext = ".sh" then "üîß"
  else if ext = ".ps1" then "üîß"
  else if ext = ".bat" then "üîß"
  else "üìÑ"

/-- The data carried by a leaf of the serialized tree: exactly the
three fields `buildFileTree` copies out of a record. -/
structure TreeFile where
  created : Int
  summary : String
  tags : List String
deriving DecidableEq, Repr

/-- A node of the nested tree `buildFileTree` produces: a record object
(carries a created field, plus any child keys a later insertion grafts
into it — see `insertPath`) or a directory object (no created field,
children in insertion order).  The renderer probes for the created
field, so a record node renders as a file whatever was grafted into
it. -/
inductive TreeNode where
  | file : TreeFile → List (String × TreeNode) → TreeNode
  | dir : List (String × TreeNode) → TreeNode

/-- JavaScript object assignment on a key-ordered association list: an
existing key keeps its position, a new key is appended. -/
def setKey (l : List (String × TreeNode)) (k : String) (v : TreeNode) :
    List (String × TreeNode) :=
  match l with
  | [] => [(k, v)]
  | (q, w) :: rest => if q = k then (k, v) :: rest else (q, w) :: setKey rest k v

/-- Key lookup in a nested-object level. -/
def getKey (l : List (String × TreeNode)) (k : String) : Option TreeNode :=
  match l with
  | [] => none
  | (q, w) :: rest => if q = k then some w else getKey rest k

/-- Insertion of one path (already split into segments) into the nested
tree, mirroring the loop in `buildFileTree`: the final segment is
assigned a fresh record object (overwriting whatever the key held); an
intermediate segment descends into the existing object at that key — a
directory, or a record object, in which case the remaining path is
grafted into the record (such grafted children never render, because the
renderer sees the created field and prints only the record fields) — and
creates an empty container when the key is absent.  A record and a
directory can share a path because records are never pruned when files
disappear from disk. -/
def insertPath (t : List (String × TreeNode)) (parts : List String)
    (f : TreeFile) : List (String × TreeNode) :=
  match parts with
  | [] => t
  | [leaf] => setKey t leaf (TreeNode.file f [])
  | d :: rest =>
    match getKey t d with
    | some (TreeNode.dir s) => setKey t d (TreeNode.dir (insertPath s rest f))
    | some (TreeNode.file f0 extra) =>
      setKey t d (TreeNode.file f0 (insertPath extra rest f))
    | none => setKey t d (TreeNode.dir (insertPath [] rest f))

/-- The derived document tree: the header fields and the nested files
object. -/
structure TreeDoc where
  workspace : String
  lastUpdated : String
  totalFiles : Nat
  files : List (String × TreeNode)

/-- `buildFileTree(filesObj)`: entries sorted newest-first, each path
relativized, split on the separator, and inserted into the nested
structure. -/
def buildFileTree (root : String) (nowIso : String) (files : Index) : TreeDoc :=
  let sortedEntries := sortBy createdDesc files
  { workspace := root
    lastUpdated := nowIso
    totalFiles := files.length
    files := sortedEntries.foldl
      (fun acc e =>
        insertPath acc
          ((splitListOn '/' (relativeTo root e.1).toList).map String.mk)
          { created := e.2.created, summary := e.2.summary, tags := e.2.tags })
      [] }

/-- The bracketed comma-joined rendering of a tags list (empty list
rendered as a pair of brackets). -/
def renderTags (tags : List String) : String :=
  if tags.length > 0 then "[" ++ joinSep ", " tags ++ "]"
  else "[]"

/-- Repetition of the two-space indent unit. -/
def indentOf (level : Nat) : String :=
  String.join (List.replicate level "  ")

/-- Leaf test of `formatTreeLevel` (the created-field membership probe
on the duck-typed node). -/
def isFileNode (v : TreeNode) : Bool :=
  match v with
  | TreeNode.file _ _ => true
  | TreeNode.dir _ => false

/-- Newest-first comparator on leaf entries inside one tree level. -/
def treeFileDesc (a b : String × TreeNode) : Bool :=
  match a.2, b.2 with
  | TreeNode.file fa _, TreeNode.file fb _ => decide (fb.created ≤ fa.created)
  | _, _ => true

/-- Alphabetical comparator on directory entries (locale comparison of
the en-GB locale agrees with code-point order on the ASCII names
considered here). -/
def dirNameLe (a b : String × TreeNode) : Bool :=
  charListLe a.1.toList b.1.toList
where
  charListLe : List Char → List Char → Bool
  | [], _ => true
  | _ :: _, [] => false
  | c :: cs, d :: ds => c < d || (c = d && charListLe cs ds)

/-- `formatTreeLevel(obj, level, lines)`: directories first
(alphabetical), then files (newest first); every entry after the first
preceded by a blank line; files rendered as an icon comment line, the
key line, and the created, summary and tags lines; directories as a
section comment line, the key line, and their recursively rendered
children.  The fuel bounds the nesting depth (the JavaScript recursion
terminates on every finite tree; all theorems below supply ample
fuel). -/
def formatTreeLevel (fuel : Nat) (entries : List (String × TreeNode))
    (level : Nat) (now : Int) : List String :=
  match fuel with
  | 0 => []
  | fuel + 1 =>
    let indent := indentOf level
    let parted := entries.partition (fun e => isFileNode e.2)
    let sorted := sortBy dirNameLe parted.2 ++ sortBy treeFileDesc parted.1
    (sorted.enum.map (fun ie =>
      let i := ie.1
      let key := ie.2.1
      (if i > 0 then [""] else []) ++
      (match ie.2.2 with
       | TreeNode.file v _ =>
         [indent ++ "# " ++ getFileIcon key ++ " " ++ key ++ "  >> " ++
            getRelativeTime v.created now ++ " <<",
          indent ++ key ++ ":",
          indent ++ "  created: " ++ formatDateTime v.created now,
          indent ++ "  summary: " ++ v.summary,
          indent ++ "  tags: " ++ renderTags v.tags]
       | TreeNode.dir sub =>
         [indent ++ "# === üìÅ " ++ key,
          indent ++ key ++ ":"] ++
           formatTreeLevel fuel sub (level + 1) now))).flatten

/-- `formatYamlWithSpacing(tree)`: the metadata lines, the files key,
the Root folder header, and the rendered tree (level two), joined with
newlines.  This is the whole body of the persisted document between the
fixed header and footer, and in particular contains its entire files
section. -/
def formatYamlWithSpacing (fuel : Nat) (tree : TreeDoc) (now : Int) : String :=
  let lines :=
    ["workspace: " ++ tree.workspace,
     "lastUpdated: '" ++ tree.lastUpdated ++ "'",
     "totalFiles: " ++ toString tree.totalFiles,
     "",
     "files:",
     "",
     "  # === üè† Root",
     "  Root:"] ++
    (if tree.files.length > 0 then formatTreeLevel fuel tree.files 2 now else [])
  joinSep "\n" lines

/-- The document body `saveMetadata` persists for a given index (the
fixed header and footer around it carry no per-file data). -/
def renderBody (fuel : Nat) (root : String) (now : Int) (nowIso : String)
    (files : Index) : String :=
  formatYamlWithSpacing fuel (buildFileTree root nowIso files) now

/-- The summary rule for recognized source-code files in the words of
the amended claim, to be compared with the source translation
`generateSummary`: the first line whose whitespace-trimmed form begins
with a double slash or a hash, stripped of a leading run of slash and
hash characters plus following whitespace only when the line itself
starts with such a character (an indented comment line is kept
verbatim), truncated to eighty characters; when no such line exists, the
extension name followed by a source-file marker. -/
def codeSummarySpec (content ext : String) : String :=
  match (nonBlankLines content).find?
      (fun l => strStartsWith (jsTrim l) "//" || strStartsWith (jsTrim l) "#") with
  | some comment => take80 (stripCommentMarker comment)
  | none => strDrop ext 1 ++ " source file"

/-- Decidable equality of results of the fallible query operations. -/
instance exceptDecEq {ε α : Type} [DecidableEq ε] [DecidableEq α] :
    DecidableEq (Except ε α) := fun a b =>
  match a, b with
  | Except.error x, Except.error y =>
    if h : x = y then isTrue (congrArg Except.error h)
    else isFalse (fun he => h (Except.error.inj he))
  | Except.ok x, Except.ok y =>
    if h : x = y then isTrue (congrArg Except.ok h)
    else isFalse (fun he => h (Except.ok.inj he))
  | Except.error _, Except.ok _ => isFalse (fun he => Except.noConfusion he)
  | Except.ok _, Except.error _ => isFalse (fun he => Except.noConfusion he)

theorem take80_length (s : String) : (take80 s).length ≤ 80 := by
  have h : (take80 s).length = (s.toList.take 80).length := rfl
  rw [h]
  exact List.length_take_le 80 s.toList

theorem mem_insertBy {α : Type} (le : α → α → Bool) (a x : α) (l : List α) :
    x ∈ insertBy le a l ↔ x = a ∨ x ∈ l := by
  induction l with
  | nil => simp [insertBy]
  | cons y ys ih =>
    simp only [insertBy]
    split
    · simp
    · simp only [List.mem_cons, ih]
      tauto

theorem mem_sortBy {α : Type} (le : α → α → Bool) (x : α) (l : List α) :
    x ∈ sortBy le l ↔ x ∈ l := by
  induction l with
  | nil => simp [sortBy]
  | cons y ys ih =>
    show x ∈ insertBy le y (sortBy le ys) ↔ _
    rw [mem_insertBy, ih]
    simp

theorem refreshRecord_created (p : String) (r : FileRecord)
    (x : Except String String) : (refreshRecord p r x).created = r.created := by
  cases x <;> rfl

theorem findRec_refreshMetadata (files : Index) (read : ReadOracle) (p : String) :
    findRec (refreshMetadata files read) p =
      (findRec files p).map (fun r => refreshRecord p r (read p)) := by
  induction files with
  | nil => rfl
  | cons e rest ih =>
    obtain ⟨q, r⟩ := e
    by_cases hqp : q = p
    · subst hqp
      simp only [refreshMetadata, List.map_cons, findRec]
      simp
    · simp only [refreshMetadata, List.map_cons, findRec, hqp, if_false]
      simpa [refreshMetadata] using ih

theorem findRec_append_left (files extra : Index) (p : String) (r : FileRecord)
    (h : findRec files p = some r) : findRec (files ++ extra) p = some r := by
  induction files with
  | nil => exact Option.noConfusion h
  | cons e rest ih =>
    obtain ⟨q, w⟩ := e
    by_cases hqp : q = p
    · simp only [findRec, hqp, if_pos rfl] at h
      simp only [List.cons_append, findRec, hqp, if_pos rfl]
      exact h
    · simp only [findRec, hqp, if_false] at h
      simp only [List.cons_append, findRec, hqp, if_false]
      exact ih h

/-- Claim C4 counterexample: with no user ignore files at all, the
pattern list ends with exactly two built-in patterns, not three. -/
theorem c4_two_builtins_counterexample :
    loadIgnorePatterns none none = [builtinTimeponPattern, builtinBackupPattern] ∧
    (loadIgnorePatterns none none).length = 2 := ⟨rfl, rfl⟩

/-- Claim C4 (amended): `loadIgnorePatterns` always appends exactly two
built-in patterns (the metadata document and its backups) after all user
patterns from the two ignore files, and a path matching either built-in
is ignored whatever the user patterns are. -/
theorem c4_builtin_patterns (t g : Option String) :
    loadIgnorePatterns t g =
      parseIgnoreFile t ++ parseIgnoreFile g ++
        [builtinTimeponPattern, builtinBackupPattern] ∧
    ∀ p : String,
      (globTest builtinTimeponPattern p || globTest builtinBackupPattern p) = true →
      isIgnored (loadIgnorePatterns t g) p = true := by
  refine ⟨rfl, fun p hp => ?_⟩
  have h1 : builtinTimeponPattern ∈ loadIgnorePatterns t g := by
    simp [loadIgnorePatterns]
  have h2 : builtinBackupPattern ∈ loadIgnorePatterns t g := by
    simp [loadIgnorePatterns]
  have hp' : globTest builtinTimeponPattern p = true ∨
      globTest builtinBackupPattern p = true := by
    simpa using hp
  rcases hp' with h | h
  · exact List.any_eq_true.mpr ⟨builtinTimeponPattern, h1, h⟩
  · exact List.any_eq_true.mpr ⟨builtinBackupPattern, h2, h⟩

/-- Claim C4 witness: the metadata document name is ignored with no
user patterns present. -/
theorem c4_builtin_patterns_witness :
    isIgnored (loadIgnorePatterns none none) "_timepon.yaml" = true :=
  (c4_builtin_patterns none none).2 "_timepon.yaml" (by decide)

/-- Claim C5 counterexample: a zero-byte content does not classify as
text for every path — the known-binary extension deny-list is checked
before the content, so an empty buffer with a png extension classifies
as binary. -/
theorem c5_empty_png_counterexample : isBinary [] "x.png" = true := by decide

/-- Claim C5 (amended): the classifier satisfies the three properties
with the first restricted to paths whose extension is not on the
known-binary deny-list: such a path with zero-byte content classifies
as text; a path with extension on neither table classifies the PNG
magic bytes as binary; a path with extension md classifies any
printable-ASCII content as text. -/
theorem c5_classifier :
    (∀ path : String,
        knownBinaryExts.contains (lowerStr (extname path)) = false →
        isBinary [] path = false) ∧
    (∀ path : String,
        knownTextExts.contains (lowerStr (extname path)) = false →
        knownBinaryExts.contains (lowerStr (extname path)) = false →
        isBinary [0x89, 0x50, 0x4E, 0x47] path = true) ∧
    (∀ (bytes : List Nat) (path : String),
        (∀ b ∈ bytes, 32 ≤ b ∧ b < 127) →
        lowerStr (extname path) = ".md" →
        isBinary bytes path = false) := by
  refine ⟨fun path hbin => ?_, fun path htext hbin => ?_, fun bytes path _ hmd => ?_⟩
  · cases htext : knownTextExts.contains (lowerStr (extname path)) with
    | true =>
      simp only [isBinary]
      rw [htext]
      simp
    | false =>
      simp only [isBinary]
      rw [htext, hbin]
      simp [magicBytesBinary]
  · have hmag : magicBytesBinary [0x89, 0x50, 0x4E, 0x47] = true := by decide
    simp only [isBinary]
    rw [htext, hbin, hmag]
    simp
  · have htext : knownTextExts.contains (lowerStr (extname path)) = true := by
      rw [hmd]; decide
    simp only [isBinary]
    rw [htext]
    simp

/-- Claim C5 witness: the three amended properties at concrete
inputs. -/
theorem c5_classifier_witness :
    isBinary [] "x.xyz" = false ∧
    isBinary [0x89, 0x50, 0x4E, 0x47] "x.xyz" = true ∧
    isBinary [72, 105] "a.md" = false :=
  ⟨c5_classifier.1 "x.xyz" (by decide),
   c5_classifier.2.1 "x.xyz" (by decide) (by decide),
   c5_classifier.2.2 [72, 105] "a.md" (by decide) (by decide)⟩

/-- Claim C6: the compiled predicate for the directory-only pattern
excludes the two dist paths but not the distribution path, and the
star-dot-log pattern matches both log paths. -/
theorem c6_glob_examples :
    globTest (globToRegex "dist/") "project/dist/out.js" = true ∧
    globTest (globToRegex "dist/") "dist/out.js" = true ∧
    globTest (globToRegex "dist/") "distribution/out.js" = false ∧
    globTest (globToRegex "*.log") "a.log" = true ∧
    globTest (globToRegex "*.log") "dir/b.log" = true := by
  refine ⟨?_, ?_, ?_, ?_, ?_⟩ <;> decide

/-- Claim C8 counterexample: an indented comment line is selected (its
trimmed form begins with the marker) but the anchored replace does not
strip the marker, so the summary keeps the indentation and the slashes —
it is neither the marker-stripped line nor the generic source-file
marker. -/
theorem c8_indented_comment_counterexample :
    generateSummary "  // hello\ncode()" "a.js" = "  // hello" ∧
    ("  // hello" : String) ≠ "hello" ∧
    ("  // hello" : String) ≠ "js source file" := by
  refine ⟨?_, ?_, ?_⟩ <;> decide

/-- Claim C8 (amended): for non-empty content and a recognized
source-code extension, the summary is the first line whose trimmed form
begins with a line-comment marker, marker-stripped only when the line is
unindented, truncated to eighty characters, else the generic source-file
marker — the rule `codeSummarySpec` states in the words of the amended
claim. -/
theorem c8_code_summary (content path : String) (h1 : content ≠ "")
    (h2 : summaryCodeExts.contains (extname path) = true) :
    generateSummary content path = codeSummarySpec content (extname path) := by
  have hmd : extname path ≠ ".md" := by
    intro he
    rw [he] at h2
    exact absurd h2 (by decide)
  have h2' : extname path ∈ summaryCodeExts := List.elem_iff.mp h2
  simp [generateSummary, codeSummarySpec, h1, hmd, h2']

/-- Claim C8 witness: a concrete unindented comment line. -/
theorem c8_code_summary_witness :
    generateSummary "// hi" "a.js" = codeSummarySpec "// hi" (extname "a.js") :=
  c8_code_summary "// hi" "a.js" (by decide) (by decide)

set_option maxRecDepth 4000 in
/-- Claim C9 counterexample: a file with empty readable content and an
eighty-two character extension (the dot plus eighty-one letters) falls
into the extension-marker fallback, whose eighty-seven character result
exceeds eighty. -/
theorem c9_long_ext_counterexample :
    80 < (generateSummary ""
      "f.aaaaaaaaaaaaaaaaaaaaaaaaaaaaaaaaaaaaaaaaaaaaaaaaaaaaaaaaaaaaaaaaaaaaaaaaaaaaaaaaa").length := by
  decide

/-- Claim C9 (amended): every summary is at most eighty characters long
except the two fallbacks that interpolate unbounded path data — the
extension marker for empty content and the basename fallback for
all-blank content. -/
theorem c9_summary_length (content path : String) :
    (generateSummary content path).length ≤ 80 ∨
    generateSummary content path = extname path ++ " file" ∨
    generateSummary content path = basename path := by
  unfold generateSummary
  by_cases h1 : content = ""
  · rw [if_pos h1]
    exact Or.inr (Or.inl rfl)
  · rw [if_neg h1]
    by_cases h2 : extname path = ".md"
    · rw [if_pos h2]
      cases hfind : (nonBlankLines content).find? (fun l => strStartsWith l "#") with
      | some heading =>
        simp only [hfind]
        exact Or.inl (take80_length _)
      | none =>
        cases hhead : (nonBlankLines content).head? with
        | some l =>
          simp only [hfind, hhead]
          exact Or.inl (take80_length _)
        | none =>
          simp only [hfind, hhead]
          exact Or.inl (by decide)
    · rw [if_neg h2]
      by_cases h3 : summaryCodeExts.contains (extname path) = true
      · rw [if_pos h3]
        cases hfind : (nonBlankLines content).find?
            (fun l => strStartsWith (jsTrim l) "//" || strStartsWith (jsTrim l) "#") with
        | some comment =>
          simp only [hfind]
          exact Or.inl (take80_length _)
        | none =>
          simp only [hfind]
          refine Or.inl ?_
          have hmem : extname path ∈ summaryCodeExts := List.elem_iff.mp h3
          have hcases : extname path = ".js" ∨ extname path = ".ts" ∨
              extname path = ".py" ∨ extname path = ".java" ∨
              extname path = ".cs" ∨ extname path = ".go" := by
            simpa [summaryCodeExts] using hmem
          rcases hcases with h | h | h | h | h | h <;> rw [h] <;> decide
      · rw [if_neg h3]
        cases hfind : (splitLines content).find? (fun l => jsTrim l ≠ "") with
        | some firstLine =>
          simp only [hfind]
          exact Or.inl (take80_length _)
        | none =>
          simp [hfind]

/-- Claim C10: a watcher add event for an already-tracked path returns
early: the server state — every record, the whole index, and the persist
count — is unchanged. -/
theorem c10_duplicate_add_noop (st : ServerState) (p : String) (x : StatResult)
    (r : FileRecord) (h : findRec st.files p = some r) :
    handleFileCreation st p x = st := by
  simp [handleFileCreation, h]

/-- Claim C10 witness: a duplicate add event on a concrete one-record
state. -/
theorem c10_duplicate_add_noop_witness :
    handleFileCreation
      { files := [("/ws/a.md", { created := 5, summary := "s", tags := [] })],
        isInitializing := false, saveCount := 1 }
      "/ws/a.md" (Except.error "boom") =
      { files := [("/ws/a.md", { created := 5, summary := "s", tags := [] })],
        isInitializing := false, saveCount := 1 } :=
  c10_duplicate_add_noop _ "/ws/a.md" (Except.error "boom")
    { created := 5, summary := "s", tags := [] } (by decide)

set_option maxRecDepth 16000 in
/-- Claim C1 counterexample: two indices that differ only in the seconds
of a created timestamp (45 seconds apart, same minute) serialize to the
very same document body — the created lines carry hour and minute only —
so no re-parse of the persisted files section can recover timestamps to
the second. -/
theorem c1_seconds_lost_counterexample :
    renderBody 5 "/ws" 1760018025000 "2025-10-09T13:53:45.000Z"
        [("/ws/a.md", { created := 1760000025000, summary := "hello", tags := ["md", "docs"] })] =
      renderBody 5 "/ws" 1760018025000 "2025-10-09T13:53:45.000Z"
        [("/ws/a.md", { created := 1759999980000, summary := "hello", tags := ["md", "docs"] })] ∧
    (1760000025000 : Int) ≠ 1759999980000 := by
  exact ⟨by decide, by decide⟩

/-- The string rebuilt from its character list is the string itself. -/
theorem stringMk_toList (s : String) : String.mk s.toList = s := rfl

/-- Splitting on a separator that does not occur yields the single
whole segment. -/
theorem splitListOn_eq_single (sep : Char) (l : List Char) (h : sep ∉ l) :
    splitListOn sep l = [l] := by
  induction l with
  | nil => rfl
  | cons c cs ih =>
    have hc : ¬(c = sep) := fun he => h (by rw [he]; exact List.mem_cons_self _ _)
    have hcs : sep ∉ cs := fun hm => h (List.mem_cons_of_mem _ hm)
    simp only [splitListOn, ih hcs, if_neg hc]

/-- The assigned pair is in the object after a key assignment. -/
theorem mem_setKey_self (t : List (String × TreeNode)) (k : String) (v : TreeNode) :
    (k, v) ∈ setKey t k v := by
  induction t with
  | nil => simp [setKey]
  | cons e rest ih =>
    obtain ⟨q, w⟩ := e
    by_cases hqk : q = k
    · simp [setKey, hqk]
    · simp only [setKey, hqk, if_false]
      exact List.mem_cons_of_mem _ ih

/-- Assigning one key leaves pairs under a different key in place. -/
theorem mem_setKey_of_ne (t : List (String × TreeNode)) (k : String) (v : TreeNode)
    (kx : String) (vx : TreeNode) (h : (k, v) ∈ t) (hne : k ≠ kx) :
    (k, v) ∈ setKey t kx vx := by
  induction t with
  | nil => cases h
  | cons e rest ih =>
    obtain ⟨q, w⟩ := e
    rcases List.mem_cons.mp h with he | ht
    · obtain ⟨rfl, rfl⟩ := Prod.mk.injEq .. ▸ he
      simp only [setKey, if_neg hne]
      exact List.mem_cons_self _ _
    · by_cases hq : q = kx
      · simp only [setKey, hq, if_pos rfl]
        exact List.mem_cons_of_mem _ ht
      · simp only [setKey, hq, if_false]
        exact List.mem_cons_of_mem _ (ih ht)

/-- The stable insertion places the element somewhere: a permutation of
consing it. -/
theorem perm_insertBy {α : Type} (le : α → α → Bool) (x : α) (l : List α) :
    List.Perm (insertBy le x l) (x :: l) := by
  induction l with
  | nil => exact List.Perm.refl _
  | cons y ys ih =>
    simp only [insertBy]
    split
    · exact List.Perm.refl _
    · exact (ih.cons y).trans (List.Perm.swap x y ys)

/-- The stable sort permutes its input. -/
theorem sortBy_perm {α : Type} (le : α → α → Bool) (l : List α) :
    List.Perm (sortBy le l) l := by
  induction l with
  | nil => exact List.Perm.refl _
  | cons y ys ih =>
    show List.Perm (insertBy le y (sortBy le ys)) (y :: ys)
    exact (perm_insertBy le y (sortBy le ys)).trans (ih.cons y)

/-- A member of a list is enumerated at some index. -/
theorem mem_enumFrom_of_mem {α : Type} (x : α) (l : List α) (n : Nat)
    (h : x ∈ l) : ∃ i, (i, x) ∈ l.enumFrom n := by
  induction l generalizing n with
  | nil => cases h
  | cons y ys ih =>
    rcases List.mem_cons.mp h with rfl | hy
    · exact ⟨n, List.mem_cons_self _ _⟩
    · obtain ⟨i, hi⟩ := ih (n + 1) hy
      exact ⟨i, List.mem_cons_of_mem _ hi⟩

/-- See `mem_enumFrom_of_mem`. -/
theorem mem_enum_of_mem {α : Type} (x : α) (l : List α) (h : x ∈ l) :
    ∃ i, (i, x) ∈ l.enum :=
  mem_enumFrom_of_mem x l 0 h

/-- Every record node of a level is rendered: its five lines (icon
comment, key, created, summary, tags) occur consecutively in the output
of `formatTreeLevel` for that level. -/
theorem renderBlock_infix (entries : List (String × TreeNode)) (level : Nat)
    (now : Int) (fuel : Nat) (k : String) (v : TreeFile)
    (extra : List (String × TreeNode))
    (h : (k, TreeNode.file v extra) ∈ entries) :
    [indentOf level ++ "# " ++ getFileIcon k ++ " " ++ k ++ "  >> " ++
       getRelativeTime v.created now ++ " <<",
     indentOf level ++ k ++ ":",
     indentOf level ++ "  created: " ++ formatDateTime v.created now,
     indentOf level ++ "  summary: " ++ v.summary,
     indentOf level ++ "  tags: " ++ renderTags v.tags] <:+:
      formatTreeLevel (fuel + 1) entries level now := by
  have hfile : (k, TreeNode.file v extra) ∈
      (entries.partition (fun e => isFileNode e.2)).1 := by
    rw [List.partition_eq_filter_filter]
    exact List.mem_filter.mpr ⟨h, by simp [isFileNode]⟩
  have hsorted : (k, TreeNode.file v extra) ∈
      sortBy dirNameLe (entries.partition (fun e => isFileNode e.2)).2 ++
        sortBy treeFileDesc (entries.partition (fun e => isFileNode e.2)).1 :=
    List.mem_append.mpr (Or.inr ((mem_sortBy _ _ _).mpr hfile))
  obtain ⟨i, hi⟩ := mem_enum_of_mem _ _ hsorted
  exact ((List.suffix_append _ _).isInfix).trans
    (List.infix_of_mem_flatten (List.mem_map_of_mem _ hi))

/-- Every flat entry stays in place through the remaining insertions of
`buildFileTree`, whatever the accumulator holds under other keys. -/
theorem foldl_insertPath_frame (root : String) (L : Index)
    (acc : List (String × TreeNode)) (k : String) (v : TreeNode)
    (hmem : (k, v) ∈ acc)
    (hflat : ∀ e ∈ L, ('/' : Char) ∉ (relativeTo root e.1).toList)
    (hdiff : ∀ e ∈ L, relativeTo root e.1 ≠ k) :
    (k, v) ∈ L.foldl
      (fun acc e =>
        insertPath acc
          ((splitListOn '/' (relativeTo root e.1).toList).map String.mk)
          { created := e.2.created, summary := e.2.summary, tags := e.2.tags }) acc := by
  induction L generalizing acc with
  | nil => exact hmem
  | cons e rest ih =>
    have hsegs : (splitListOn '/' (relativeTo root e.1).toList).map String.mk =
        [relativeTo root e.1] := by
      rw [splitListOn_eq_single _ _ (hflat e (List.mem_cons_self _ _))]
      simp [stringMk_toList]
    simp only [List.foldl_cons, hsegs]
    exact ih _
      (mem_setKey_of_ne acc k v (relativeTo root e.1) _ hmem
        (Ne.symm (hdiff e (List.mem_cons_self _ _))))
      (fun q hq => hflat q (List.mem_cons_of_mem _ hq))
      (fun q hq => hdiff q (List.mem_cons_of_mem _ hq))

/-- With pairwise distinct flat relative names, every entry of the
insertion list ends up in the built tree as a fresh record node. -/
theorem foldl_insertPath_mem (root : String) (L : Index)
    (acc : List (String × TreeNode))
    (hflat : ∀ e ∈ L, ('/' : Char) ∉ (relativeTo root e.1).toList)
    (hnodup : (L.map (fun e => relativeTo root e.1)).Nodup)
    (p : String × FileRecord) (hp : p ∈ L) :
    (relativeTo root p.1,
      TreeNode.file
        { created := p.2.created, summary := p.2.summary, tags := p.2.tags } []) ∈
      L.foldl
        (fun acc e =>
          insertPath acc
            ((splitListOn '/' (relativeTo root e.1).toList).map String.mk)
            { created := e.2.created, summary := e.2.summary, tags := e.2.tags }) acc := by
  induction L generalizing acc with
  | nil => cases hp
  | cons e rest ih =>
    have hsegs : (splitListOn '/' (relativeTo root e.1).toList).map String.mk =
        [relativeTo root e.1] := by
      rw [splitListOn_eq_single _ _ (hflat e (List.mem_cons_self _ _))]
      simp [stringMk_toList]
    rcases List.mem_cons.mp hp with rfl | hrest
    · simp only [List.foldl_cons, hsegs]
      refine foldl_insertPath_frame root rest _ _ _
        (mem_setKey_self acc (relativeTo root p.1) _)
        (fun q hq => hflat q (List.mem_cons_of_mem _ hq)) ?_
      intro q hq he
      rw [List.map_cons] at hnodup
      have hin : relativeTo root p.1 ∈
          rest.map (fun e => relativeTo root e.1) := by
        rw [← he]
        exact List.mem_map_of_mem _ hq
      exact (List.nodup_cons.mp hnodup).1 hin
    · simp only [List.foldl_cons, hsegs]
      exact ih _ (fun q hq => hflat q (List.mem_cons_of_mem _ hq))
        (List.nodup_cons.mp hnodup).2 hrest

set_option maxHeartbeats 2000000 in
/-- Claim C1 (amended): for every index whose relative paths are
pairwise distinct single segments (no separator in them), the files
section of the persisted body renders every record verbatim — its five
consecutive lines carry the path segment, the summary, and the tags,
while the created field passes through `formatDateTime`, which has the
date, hour and minute but no seconds, so timestamps survive
serialization at most to the minute.  And when one tracked path extends
another — a state the index can reach because records are never
pruned — the nested record is grafted into (or over) the leaf record
object and contributes nothing to the document: the rendered files
section equals that of the index without it. -/
theorem c1_files_section_rendering :
    (∀ (root iso : String) (now : Int) (files : Index) (fuel : Nat),
        (∀ e ∈ files, ('/' : Char) ∉ (relativeTo root e.1).toList) →
        (files.map (fun e => relativeTo root e.1)).Nodup →
        ∀ e ∈ files,
          [indentOf 2 ++ "# " ++ getFileIcon (relativeTo root e.1) ++ " " ++
             relativeTo root e.1 ++ "  >> " ++
             getRelativeTime e.2.created now ++ " <<",
           indentOf 2 ++ relativeTo root e.1 ++ ":",
           indentOf 2 ++ "  created: " ++ formatDateTime e.2.created now,
           indentOf 2 ++ "  summary: " ++ e.2.summary,
           indentOf 2 ++ "  tags: " ++ renderTags e.2.tags] <:+:
            formatTreeLevel (fuel + 1) (buildFileTree root iso files).files 2 now) ∧
    formatTreeLevel 5 (buildFileTree "/ws" "i"
        [("/ws/a", { created := 100, summary := "sa", tags := [] }),
         ("/ws/a/b", { created := 50, summary := "sb", tags := [] })]).files 2 0 =
      formatTreeLevel 5 (buildFileTree "/ws" "i"
        [("/ws/a", { created := 100, summary := "sa", tags := [] })]).files 2 0 := by
  constructor
  · intro root iso now files fuel hflat hnodup e he
    have hfiles : (buildFileTree root iso files).files =
        (sortBy createdDesc files).foldl
          (fun acc e =>
            insertPath acc
              ((splitListOn '/' (relativeTo root e.1).toList).map String.mk)
              { created := e.2.created, summary := e.2.summary, tags := e.2.tags })
          [] := rfl
    have hmem : (relativeTo root e.1,
        TreeNode.file
          { created := e.2.created, summary := e.2.summary, tags := e.2.tags } []) ∈
        (buildFileTree root iso files).files := by
      rw [hfiles]
      exact foldl_insertPath_mem root (sortBy createdDesc files) []
        (fun q hq => hflat q ((mem_sortBy _ _ _).mp hq))
        ((((sortBy_perm createdDesc files).map
            (fun e => relativeTo root e.1)).nodup_iff).mpr hnodup)
        e ((mem_sortBy _ _ _).mpr he)
    exact renderBlock_infix ((buildFileTree root iso files).files) 2 now fuel
      (relativeTo root e.1)
      { created := e.2.created, summary := e.2.summary, tags := e.2.tags } [] hmem
  · decide

/-- Claim C1 witness: a two-record flat index; the first record is
rendered as its five lines inside the files section. -/
theorem c1_files_section_rendering_witness :
    [indentOf 2 ++ "# " ++ getFileIcon (relativeTo "/ws" "/ws/a.md") ++ " " ++
       relativeTo "/ws" "/ws/a.md" ++ "  >> " ++ getRelativeTime 5 1000000 ++ " <<",
     indentOf 2 ++ relativeTo "/ws" "/ws/a.md" ++ ":",
     indentOf 2 ++ "  created: " ++ formatDateTime 5 1000000,
     indentOf 2 ++ "  summary: " ++ "hi",
     indentOf 2 ++ "  tags: " ++ renderTags ["md"]] <:+:
      formatTreeLevel 1 (buildFileTree "/ws" "i"
        [("/ws/a.md", { created := 5, summary := "hi", tags := ["md"] }),
         ("/ws/b.txt", { created := 7, summary := "s2", tags := [] })]).files 2 1000000 :=
  c1_files_section_rendering.1 "/ws" "i" 1000000
    [("/ws/a.md", { created := 5, summary := "hi", tags := ["md"] }),
     ("/ws/b.txt", { created := 7, summary := "s2", tags := [] })] 0
    (by decide) (by decide)
    ("/ws/a.md", { created := 5, summary := "hi", tags := ["md"] }) (by decide)

/-- Claim C2 counterexample: an hours argument of zero does not fail
with the invalid-argument error — the dispatch replaces the falsy zero
by the default 24 and the call succeeds. -/
theorem c2_hours_zero_counterexample :
    getRecentFilesTool "/ws"
        [("/ws/a.md", { created := -1, summary := "s", tags := [] })] 0 (some 0) =
      Except.ok [("a.md", { created := -1, summary := "s", tags := [] })] := by
  have h24 : ¬ (24 : ℚ) ≤ 0 := by norm_num
  show getRecentFiles "/ws" _ 0 (if (0 : ℚ) = 0 then 24 else 0) = _
  rw [if_pos rfl]
  unfold getRecentFiles
  rw [if_neg h24]
  norm_num [List.filter, sortBy, insertBy, relativeTo, createdDesc]
  decide

/-- Claim C2 (amended): through the tool dispatch only a strictly
negative hours argument reaches the validation and fails with the
invalid-argument error; an hours argument of zero is treated like an
absent one and both default to 24; for positive hours the call returns
exactly the tracked records whose created time is strictly greater than
now minus hours (in milliseconds), with paths relativized. -/
theorem c2_recent_validation_and_filter (root : String) (files : Index)
    (now : Int) (h : ℚ) :
    (h < 0 → getRecentFilesTool root files now (some h) =
        Except.error "Hours parameter must be a positive number") ∧
    getRecentFilesTool root files now (some 0) = getRecentFiles root files now 24 ∧
    getRecentFilesTool root files now none = getRecentFiles root files now 24 ∧
    (0 < h → ∀ x : String × FileRecord,
        (∃ l, getRecentFiles root files now h = Except.ok l ∧ x ∈ l) ↔
        ∃ e ∈ files, ((now : ℚ) - h * 3600000 < (e.2.created : ℚ) ∧
          x = (relativeTo root e.1, e.2))) := by
  refine ⟨fun hlt => ?_, ?_, ?_, fun hpos x => ?_⟩
  · have hne : h ≠ 0 := ne_of_lt hlt
    show getRecentFiles root files now (if h = 0 then 24 else h) = _
    rw [if_neg hne]
    unfold getRecentFiles
    rw [if_pos hlt.le]
  · rfl
  · rfl
  · have hnotle : ¬ h ≤ 0 := not_le.mpr hpos
    constructor
    · rintro ⟨l, hl, hx⟩
      unfold getRecentFiles at hl
      rw [if_neg hnotle] at hl
      obtain rfl : _ = l := (Except.ok.injEq _ _).mp hl
      obtain ⟨e, he, rfl⟩ := List.mem_map.mp hx
      have he' := (mem_sortBy _ _ _).mp he
      have hef := List.mem_filter.mp he'
      exact ⟨e, hef.1, of_decide_eq_true hef.2, rfl⟩
    · rintro ⟨e, hef, hcut, rfl⟩
      refine ⟨_, by unfold getRecentFiles; rw [if_neg hnotle], ?_⟩
      exact List.mem_map.mpr
        ⟨e, (mem_sortBy _ _ _).mpr (List.mem_filter.mpr ⟨hef, decide_eq_true hcut⟩), rfl⟩

/-- Claim C2 witness: a negative hours argument fails, and with one
record created one millisecond before now the one-hour query returns
it. -/
theorem c2_recent_witness :
    getRecentFilesTool "/ws" [] 0 (some (-1)) =
      Except.error "Hours parameter must be a positive number" ∧
    (∃ l, getRecentFiles "/ws"
        [("/ws/a.md", { created := -1, summary := "s", tags := [] })] 0 1 =
        Except.ok l ∧
      ("a.md", ({ created := -1, summary := "s", tags := [] } : FileRecord)) ∈ l) := by
  constructor
  · exact (c2_recent_validation_and_filter "/ws" [] 0 (-1)).1 (by norm_num)
  · exact ((c2_recent_validation_and_filter "/ws"
        [("/ws/a.md", { created := -1, summary := "s", tags := [] })] 0 1).2.2.2
        (by norm_num) _).mpr
      ⟨("/ws/a.md", { created := -1, summary := "s", tags := [] }),
        by simp, by norm_num, rfl⟩

/-- Claim C3: whatever the write outcomes, `saveMetadata` schedules at
most three retries, the delay before the k-th retry is two to the k
times the 1000 millisecond base (2000, 4000, 8000 milliseconds), and
once the attempt sequence settles — success or exhaustion — the retry
counter is zero again, so the next independent save starts fresh. -/
theorem c3_save_retry_backoff (outs : List Bool) (h : 4 ≤ outs.length) :
    List.isPrefixOf (saveRun 0 outs).1 [2000, 4000, 8000] = true ∧
    (saveRun 0 outs).2 = 0 := by
  rcases outs with _ | ⟨a, _ | ⟨b, _ | ⟨c, _ | ⟨d, rest⟩⟩⟩⟩ <;>
    simp only [List.length] at h <;> try omega
  cases a <;> cases b <;> cases c <;> cases d <;>
    simp [saveRun, SAVE_RETRY_MAX, SAVE_RETRY_BASE_DELAY, List.isPrefixOf]

/-- Claim C3 witness: four straight write failures. -/
theorem c3_save_retry_backoff_witness :
    List.isPrefixOf (saveRun 0 [false, false, false, false]).1
      [2000, 4000, 8000] = true ∧
    (saveRun 0 [false, false, false, false]).2 = 0 :=
  c3_save_retry_backoff [false, false, false, false] (by decide)

/-- Claim C7: the created field of a tracked record is invariant under
any number of refresh calls — whether each per-path re-read succeeds or
fails — and under watcher add events, the only other operation touching
the index. -/
theorem c7_created_invariant :
    (∀ (files : Index) (os : List ReadOracle) (p : String) (r : FileRecord),
        findRec files p = some r →
        ∃ r', findRec (refreshMany os files) p = some r' ∧
          r'.created = r.created) ∧
    (∀ (st : ServerState) (q : String) (x : StatResult) (p : String)
        (r : FileRecord),
        findRec st.files p = some r →
        ∃ r', findRec (handleFileCreation st q x).files p = some r' ∧
          r'.created = r.created) := by
  constructor
  · intro files os
    induction os generalizing files with
    | nil => exact fun p r h => ⟨r, h, rfl⟩
    | cons o os ih =>
      intro p r h
      have h1 : findRec (refreshMetadata files o) p =
          some (refreshRecord p r (o p)) := by
        rw [findRec_refreshMetadata, h]
        rfl
      obtain ⟨r', hr', hc⟩ := ih (refreshMetadata files o) p _ h1
      exact ⟨r', hr', by rw [hc, refreshRecord_created]⟩
  · intro st q x p r h
    cases hq : findRec st.files q with
    | some w =>
      simp only [handleFileCreation, hq]
      exact ⟨r, h, rfl⟩
    | none =>
      cases x with
      | error e =>
        simp only [handleFileCreation, hq]
        exact ⟨r, h, rfl⟩
      | ok v =>
        obtain ⟨birth, content⟩ := v
        simp only [handleFileCreation, hq]
        exact ⟨r, findRec_append_left _ _ _ _ h, rfl⟩

/-- Claim C7 witness: a failing refresh pass (the record goes stale) and
an add event for another path both keep a concrete created value. -/
theorem c7_created_invariant_witness :
    (∃ r', findRec (refreshMany [fun _ => Except.error "gone"]
        [("/ws/a.md", { created := 5, summary := "s", tags := [] })]) "/ws/a.md" =
        some r' ∧
      r'.created = 5) ∧
    (∃ r', findRec (handleFileCreation
        { files := [("/ws/a.md", { created := 5, summary := "s", tags := [] })],
          isInitializing := false, saveCount := 0 }
        "/ws/b.md" (Except.ok (9, "x"))).files "/ws/a.md" = some r' ∧
      r'.created = 5) :=
  ⟨c7_created_invariant.1 [("/ws/a.md", { created := 5, summary := "s", tags := [] })]
      [fun _ => Except.error "gone"] "/ws/a.md"
      { created := 5, summary := "s", tags := [] } (by decide),
   c7_created_invariant.2
      { files := [("/ws/a.md", { created := 5, summary := "s", tags := [] })],
        isInitializing := false, saveCount := 0 }
      "/ws/b.md" (Except.ok (9, "x")) "/ws/a.md"
      { created := 5, summary := "s", tags := [] } (by decide)⟩

end Timepon
